import Mathlib

/-!
# Engram memory core: shallow embedding and verification

This file embeds the memory core of the Engram repository (a local memory
store for AI coding agents) in Lean 4 and proves or refutes the frozen
claims about it.

Modelling conventions:
* The SQLite store is a `Db` record holding the `memories` table, the
  `idempotency_ledger` table and the append-only `metrics` table as lists.
* Timestamps are integers (milliseconds); SQL `datetime(now)` becomes an
  explicit `now : Int` argument threaded through the operations.
* SQL `REAL` columns and float vector components are `ℚ`; the purely real
  decay computation (`Math.pow` / `Math.log`) is embedded separately over
  `ℝ` for the decay claim, and passed to the retrieval pipeline as an
  oracle parameter `decayFn` so the pipeline stays executable.
* JS exceptions become `Except String`; `undefined`/`null` become `Option`.
* External engines (FTS5 match/bm25, the embedding model, `Math.exp`,
  `JSON.parse`) are oracle parameters; theorems quantify over them.
-/

deriving instance DecidableEq for Except

namespace Engram

/-- A row of the `memories` table (`Memory` in `src/db/index.ts`). -/
structure Memory where
  id : String
  content : String
  category : Option String
  scope_id : Option String
  chat_id : Option String
  thread_id : Option String
  task_id : Option String
  metadata_json : Option String
  idempotency_key : Option String
  created_at : Int
  updated_at : Int
  last_accessed : Int
  access_count : Nat
  strength : ℚ
  embedding : Option (List ℚ)
  deriving DecidableEq, Repr

/-- A row of the `idempotency_ledger` table. -/
structure LedgerRow where
  key : String
  operation : String
  scope_key : String
  scope_id : Option String
  result_json : String
  deriving DecidableEq, Repr

/-- A row of the `metrics` table (`MetricEvent` in `src/db/index.ts`). -/
structure MetricRow where
  session_id : Option String
  event : String
  memory_id : Option String
  query : Option String
  result_count : Option Nat
  was_fallback : Bool
  deriving DecidableEq, Repr

/-- The database state: the three tables touched by the memory core. -/
structure Db where
  memories : List Memory
  ledger : List LedgerRow
  metrics : List MetricRow
  deriving DecidableEq, Repr

/-- Feature flags (`Config.features` in `src/config.ts`). -/
structure Features where
  scopes : Bool
  idempotency : Bool
  contextHydration : Bool
  workItems : Bool
  deriving DecidableEq, Repr

/-- The configuration fields the memory core reads (`src/config.ts`). -/
structure Config where
  defaultRecallLimit : Nat
  minStrength : ℚ
  decayRate : ℚ
  accessBoostStrength : ℚ
  features : Features
  deriving DecidableEq, Repr

/-- The default configuration (`FILE_DEFAULTS` in `src/config.ts`, all
feature flags enabled). -/
def defaultConfig : Config :=
  { defaultRecallLimit := 10
    minStrength := mkRat 1 10
    decayRate := mkRat 95 100
    accessBoostStrength := 1
    features := { scopes := true, idempotency := true,
                  contextHydration := true, workItems := true } }

/-- JS truthiness of an optional string: `undefined`, `null` and `""` are
falsy, every other string is truthy. -/
def isTruthy : Option String → Bool
  | none => false
  | some s => s ≠ ""

/-- `normalizeScopeKey` (`src/db/index.ts`): `scope_id ?? "__global__"`.
Nullish coalescing keeps an empty string. -/
def normalizeScopeKey : Option String → String
  | none => "__global__"
  | some s => s

/-- The JS test `!query.trim()`: a string trims to empty exactly when
every character is whitespace.  (Stated directly over the characters
because `String.trim` is defined by well-founded recursion and does not
evaluate inside the kernel.) -/
def trimIsEmpty (s : String) : Bool := s.data.all Char.isWhitespace

/-- Scope filters (`MemoryFilters` in `src/db/index.ts`). -/
structure MemoryFilters where
  scope_id : Option String := none
  chat_id : Option String := none
  thread_id : Option String := none
  task_id : Option String := none
  deriving DecidableEq, Repr

/-- One dimension of `applyMemoryFilters`: the SQL clause `col = $v` is
added only when the filter value is truthy (`if (filters.x)`), and SQL
equality against a non-null value never matches a NULL column. -/
def filterDimension (filter : Option String) (column : Option String) : Bool :=
  match filter with
  | none => true
  | some s => if s = "" then true else column = some s

/-- `applyMemoryFilters` (`src/db/index.ts` lines 267-288) as a row
predicate: the four dimension clauses combined with AND. -/
def matchesFilters (f : MemoryFilters) (m : Memory) : Bool :=
  filterDimension f.scope_id m.scope_id &&
  filterDimension f.chat_id m.chat_id &&
  filterDimension f.thread_id m.thread_id &&
  filterDimension f.task_id m.task_id

/-- Insertion into a list sorted by the boolean relation `le`. -/
def insertSorted (le : α → α → Bool) (a : α) : List α → List α
  | [] => [a]
  | b :: l => if le a b then a :: b :: l else b :: insertSorted le a l

/-- Insertion sort by a boolean relation; stands in for SQL `ORDER BY`
and `Array.prototype.sort` (the claims depend only on membership). -/
def sortBy (le : α → α → Bool) : List α → List α
  | [] => []
  | a :: l => insertSorted le a (sortBy le l)

/-- `ORDER BY strength DESC, last_accessed DESC` on memory rows. -/
def recentOrder (a b : Memory) : Bool :=
  if a.strength = b.strength then b.last_accessed ≤ a.last_accessed
  else b.strength ≤ a.strength

/-- `getAllMemories` (`src/db/index.ts`): filtered rows ordered by
strength then recency, limited. -/
def getAllMemories (st : Db) (limit : Nat) (filters : MemoryFilters) :
    List Memory :=
  (sortBy recentOrder (st.memories.filter (fun m => matchesFilters filters m))).take limit

/-- An FTS search result row: a memory joined with its bm25 rank
(`SearchResult` in `src/db/index.ts`). -/
structure SearchResult where
  mem : Memory
  rank : ℚ
  deriving DecidableEq, Repr

/-- The FTS5 engine as an oracle: `fts query content` is `some rank` when
`content MATCH query` with bm25 rank `rank`, `none` otherwise. -/
abbrev FtsOracle := String → String → Option ℚ

/-- `ORDER BY rank, m.strength DESC, m.last_accessed DESC`. -/
def ftsOrder (a b : SearchResult) : Bool :=
  if a.rank = b.rank then recentOrder a.mem b.mem else a.rank ≤ b.rank

/-- `searchMemories` (`src/db/index.ts` lines 344-377): empty query falls
back to recent memories with rank 0; otherwise FTS5 match with the scope
filters ANDed into the WHERE clause. -/
def searchMemories (fts : FtsOracle) (st : Db) (query : String)
    (limit : Nat) (filters : MemoryFilters) : List SearchResult :=
  if trimIsEmpty query then
    (getAllMemories st limit filters).map (fun m => { mem := m, rank := 0 })
  else
    (sortBy ftsOrder (st.memories.filterMap (fun m =>
        match fts query m.content with
        | some r =>
            if matchesFilters filters m then some { mem := m, rank := r }
            else none
        | none => none))).take limit

/-- `updateMemoryAccess` (`src/db/index.ts` lines 307-316): the SQL UPDATE
sets `last_accessed = datetime(now)` and `access_count = access_count + 1`
on rows with the given id.  It does not touch `strength`. -/
def updateMemoryAccess (st : Db) (id : String) (now : Int) : Db :=
  { st with
    memories := st.memories.map (fun m =>
      if m.id = id then
        { m with last_accessed := now, access_count := m.access_count + 1 }
      else m) }

/-- The `for (const memory of returned) updateMemoryAccess(memory.id)`
loops in `recall`. -/
def updateAccessForAll (st : Db) (now : Int) (ids : List String) : Db :=
  ids.foldl (fun s i => updateMemoryAccess s i now) st

/-- `logMetric` (`src/db/index.ts`): append-only insert into `metrics`. -/
def logMetric (st : Db) (row : MetricRow) : Db :=
  { st with metrics := st.metrics ++ [row] }

/-- `deleteMemoryById` (`src/db/index.ts` lines 318-331): with a truthy
`scope_id` delete rows matching id AND scope; otherwise delete by id
alone.  Returns whether any row was deleted together with the new state. -/
def deleteMemoryById (st : Db) (id : String) (scope_id : Option String) :
    Bool × Db :=
  match scope_id with
  | some s =>
      if s = "" then
        let rest := st.memories.filter (fun m => m.id ≠ id)
        (decide (rest.length < st.memories.length), { st with memories := rest })
      else
        let rest := st.memories.filter (fun m => ¬(m.id = id ∧ m.scope_id = some s))
        (decide (rest.length < st.memories.length), { st with memories := rest })
  | none =>
      let rest := st.memories.filter (fun m => m.id ≠ id)
      (decide (rest.length < st.memories.length), { st with memories := rest })

/-- `getAllMemoriesWithEmbeddings` (`src/db/index.ts` lines 538-550):
rows with a non-null embedding, honoring the scope filters. -/
def getAllMemoriesWithEmbeddings (st : Db) (filters : MemoryFilters) :
    List Memory :=
  st.memories.filter (fun m => m.embedding.isSome && matchesFilters filters m)

/-- The payload cached in the ledger by `remember`: `{id}`. -/
structure IdResult where
  id : String
  deriving DecidableEq, Repr

/-- `JSON.stringify({id})` as used by the remember pipeline. -/
def stringifyIdResult (r : IdResult) : String :=
  "\x7b\"id\":\"" ++ r.id ++ "\"\x7d"

/-- `JSON.parse` specialised to the `{id}` payload, as an oracle:
`none` models a parse failure (corrupt ledger JSON). -/
abbrev JsonParser := String → Option IdResult

/-- `getIdempotencyResult` (`src/db/index.ts` lines 599-625): select the
ledger row by `(key, operation, scope_key)`; return `none` when absent;
parse `result_json`, and on a parse failure the `catch` block silently
returns `none` as well. -/
def getIdempotencyResult (parse : JsonParser) (st : Db) (key : String)
    (operation : String) (scope_id : Option String) : Option IdResult :=
  match st.ledger.find? (fun r =>
      r.key = key && r.operation = operation &&
      r.scope_key = normalizeScopeKey scope_id) with
  | none => none
  | some row =>
      match parse row.result_json with
      | some v => some v
      | none => none

/-- `saveIdempotencyResult` (`src/db/index.ts` lines 627-645):
`INSERT OR REPLACE` keyed on `(key, operation, scope_key)`. -/
def saveIdempotencyResult (st : Db) (key : String) (operation : String)
    (scope_id : Option String) (result_json : String) : Db :=
  { st with
    ledger := st.ledger.filter (fun r =>
        ¬(r.key = key ∧ r.operation = operation ∧
          r.scope_key = normalizeScopeKey scope_id)) ++
      [{ key := key, operation := operation,
         scope_key := normalizeScopeKey scope_id, scope_id := scope_id,
         result_json := result_json }] }

/-! ## Decay engine (`src/db/decay.ts`, `calculateDecayedStrength`)

The pure real-valued computation, embedded over `ℝ`.  The ISO timestamp
parsing is transport; the function takes the two clock readings in
milliseconds. -/

/-- `calculateDecayedStrength` (decay module lines 17-51): exponential
time decay with a log-scale access boost, a fresh-access fast path, and a
final clamp into `[0, 1]`. -/
noncomputable def calculateDecayedStrength (decayRate nowMs lastAccessedMs : ℝ)
    (accessCount : ℕ) (baseStrength : ℝ) : ℝ :=
  let msSinceAccess := nowMs - lastAccessedMs
  let daysSinceAccess := msSinceAccess / (1000 * 60 * 60 * 24)
  if daysSinceAccess < 0.001 then min baseStrength 1
  else
    let decayFactor := decayRate ^ daysSinceAccess
    let accessBoost := Real.log (accessCount + 1)
    let normalizedBoost := accessBoost / Real.log 2
    let decayedStrength := baseStrength * decayFactor * normalizedBoost
    min (max decayedStrength 0) 1

/-- The effective-strength formula as the spec states it, as a function of
the elapsed days: `clamp(base_strength * decay_factor * access_boost, 0, 1)`
with `decay_factor = decay_rate ^ days_since` and
`access_boost = log(access_count + 1) / log 2`, except that
`days_since < 0.001` returns `min(base, 1.0)` without further scaling. -/
noncomputable def specEffectiveStrength (decayRate daysSince : ℝ)
    (accessCount : ℕ) (baseStrength : ℝ) : ℝ :=
  if daysSince < 0.001 then min baseStrength 1
  else
    min (max (baseStrength * decayRate ^ daysSince *
      (Real.log (accessCount + 1) / Real.log 2)) 0) 1

/-! ## Retrieval pipeline (`recall`, current revision with FTS fallback) -/

/-- The shape of a memory in a recall response (`RecallMemory`). -/
structure RecallMemory where
  id : String
  content : String
  category : Option String
  strength : ℚ
  relevance : ℚ
  created_at : Int
  access_count : Nat
  deriving DecidableEq, Repr

/-- `RecallOutput`: the ranked memories and the fallback flag. -/
structure RecallOutput where
  memories : List RecallMemory
  fallback_mode : Bool
  deriving DecidableEq, Repr

/-- `RecallInput`. -/
structure RecallInput where
  query : String
  limit : Option Nat := none
  category : Option String := none
  min_strength : Option ℚ := none
  session_id : Option String := none
  scope_id : Option String := none
  chat_id : Option String := none
  thread_id : Option String := none
  task_id : Option String := none
  deriving DecidableEq, Repr

/-- The decay computation as the retrieval pipeline sees it, as an oracle
`last_accessed → access_count → base → effective` (the real-valued
`calculateDecayedStrength` is not executable; the recall claims hold for
every oracle). -/
abbrev DecayFn := Int → Nat → ℚ → ℚ

/-- `Math.exp` as an oracle, used only for the bm25-rank relevance
transform `Math.exp(rank)`. -/
abbrev ExpFn := ℚ → ℚ

/-- `cosineSimilarity` (`src/embedding.ts` lines 128-140): throws on a
dimension mismatch, otherwise the dot product of the two vectors. -/
def cosineSimilarity (a b : List ℚ) : Except String ℚ :=
  if a.length ≠ b.length then
    .error ("Embedding dimension mismatch: " ++ toString a.length ++
      " vs " ++ toString b.length)
  else
    .ok ((a.zip b).foldl (fun acc p => acc + p.1 * p.2) 0)

/-- The category filter `!input.category || m.category === input.category`
(a falsy — absent or empty — requested category keeps every row). -/
def categoryKeeps (requested : Option String) (category : Option String) :
    Bool :=
  match requested with
  | none => true
  | some c => if c = "" then true else category = some c

/-- `.sort((a, b) => b.relevance - a.relevance)`: relevance descending. -/
def semanticOrder (a b : RecallMemory) : Bool :=
  b.relevance ≤ a.relevance

/-- The `memoriesWithEmbeddings.map(...)` body of the semantic branch:
cosine similarity against the query embedding plus on-read decay, as an
`Except`-valued traversal because `cosineSimilarity` can throw inside the
map. -/
def scoreSemantic (decayFn : DecayFn) (q : List ℚ) :
    List Memory → Except String (List RecallMemory)
  | [] => .ok []
  | m :: rest =>
      match cosineSimilarity q (m.embedding.getD []) with
      | .error e => .error e
      | .ok sim =>
          match scoreSemantic decayFn q rest with
          | .error e => .error e
          | .ok tail =>
              .ok ({ id := m.id, content := m.content,
                     category := m.category,
                     strength := decayFn m.last_accessed m.access_count
                       m.strength,
                     relevance := sim, created_at := m.created_at,
                     access_count := m.access_count } :: tail)

/-- `recallFTS5`: FTS search over twice the limit, on-read decay,
`min_strength` and category filters, truncation, access updates for the
returned rows only, `relevance = exp(rank)`, `fallback_mode = false`. -/
def recallFTS5 (decayFn : DecayFn) (expQ : ExpFn) (fts : FtsOracle)
    (st : Db) (input : RecallInput) (limit : Nat) (minStrength : ℚ)
    (filters : MemoryFilters) (now : Int) : RecallOutput × Db :=
  let results := searchMemories fts st input.query (limit * 2) filters
  let decayedResults := results.map (fun s =>
    (s, decayFn s.mem.last_accessed s.mem.access_count s.mem.strength))
  let filtered := decayedResults.filter (fun p => minStrength ≤ p.2)
  let filtered2 := filtered.filter (fun p =>
    categoryKeeps input.category p.1.mem.category)
  let filtered3 := filtered2.take limit
  let st1 := updateAccessForAll st now (filtered3.map (fun p => p.1.mem.id))
  let memories : List RecallMemory := filtered3.map (fun p =>
    { id := p.1.mem.id, content := p.1.mem.content,
      category := p.1.mem.category, strength := p.2,
      relevance := expQ p.1.rank, created_at := p.1.mem.created_at,
      access_count := p.1.mem.access_count })
  let st2 := logMetric st1
    { session_id := input.session_id, event := "recall", memory_id := none,
      query := some input.query, result_count := some memories.length,
      was_fallback := false }
  ({ memories := memories, fallback_mode := false }, st2)

/-- `recallFallback` (empty query): recent memories via
`searchMemories("", limit*2, filters)`, decayed strength used both as
strength and relevance, `fallback_mode = true`. -/
def recallFallback (decayFn : DecayFn) (fts : FtsOracle) (st : Db)
    (input : RecallInput) (limit : Nat) (minStrength : ℚ)
    (filters : MemoryFilters) (now : Int) : RecallOutput × Db :=
  let results := searchMemories fts st "" (limit * 2) filters
  let decayedResults := results.map (fun s =>
    (s, decayFn s.mem.last_accessed s.mem.access_count s.mem.strength))
  let filtered := decayedResults.filter (fun p => minStrength ≤ p.2)
  let filtered2 := filtered.filter (fun p =>
    categoryKeeps input.category p.1.mem.category)
  let filtered3 := filtered2.take limit
  let st1 := updateAccessForAll st now (filtered3.map (fun p => p.1.mem.id))
  let memories : List RecallMemory := filtered3.map (fun p =>
    { id := p.1.mem.id, content := p.1.mem.content,
      category := p.1.mem.category, strength := p.2, relevance := p.2,
      created_at := p.1.mem.created_at,
      access_count := p.1.mem.access_count })
  let st2 := logMetric st1
    { session_id := input.session_id, event := "recall", memory_id := none,
      query := some input.query, result_count := some memories.length,
      was_fallback := true }
  ({ memories := memories, fallback_mode := true }, st2)

/-- The `filters` construction at the top of `recall`: the four scope
dimensions are passed through only when the scopes flag is enabled. -/
def recallFilters (input : RecallInput) (cfg : Config) : MemoryFilters :=
  if cfg.features.scopes then
    { scope_id := input.scope_id, chat_id := input.chat_id,
      thread_id := input.thread_id, task_id := input.task_id }
  else {}

/-- The tail of the semantic branch of `recall`, after the similarity
map succeeded: `min_strength` and category filters, sort by relevance
descending, truncate, update access for the returned rows, log the
metric. -/
def recallSemanticFinish (st : Db) (input : RecallInput) (limit : Nat)
    (minStrength : ℚ) (now : Int) (allDecayed : List RecallMemory) :
    RecallOutput × Db :=
  let kept := (allDecayed.filter
    (fun m => minStrength ≤ m.strength)).filter
    (fun m => categoryKeeps input.category m.category)
  let scored := (sortBy semanticOrder kept).take limit
  let st1 := updateAccessForAll st now (scored.map (fun m => m.id))
  let st2 := logMetric st1
    { session_id := input.session_id, event := "recall",
      memory_id := none, query := some input.query,
      result_count := some scored.length, was_fallback := false }
  ({ memories := scored, fallback_mode := false }, st2)

/-- `recall` (tools/recall, current revision; named `recallTool` here since
`recall` is a reserved command name): empty query → recent-mode; otherwise
semantic search over memories-with-embeddings, falling back to FTS when
there are no candidates or the query embedding fails (`embedQ = none`
models the failed `embed` result). -/
def recallTool (decayFn : DecayFn) (expQ : ExpFn) (fts : FtsOracle)
    (embedQ : Option (List ℚ)) (st : Db) (input : RecallInput)
    (cfg : Config) (now : Int) : Except String (RecallOutput × Db) :=
  let limit := input.limit.getD cfg.defaultRecallLimit
  let minStrength := input.min_strength.getD cfg.minStrength
  let filters : MemoryFilters := recallFilters input cfg
  if trimIsEmpty input.query then
    .ok (recallFallback decayFn fts st input limit minStrength filters now)
  else
    let memoriesWithEmbeddings := getAllMemoriesWithEmbeddings st filters
    if memoriesWithEmbeddings.isEmpty then
      .ok (recallFTS5 decayFn expQ fts st input limit minStrength filters now)
    else
      match embedQ with
      | none =>
          .ok (recallFTS5 decayFn expQ fts st input limit minStrength
            filters now)
      | some queryEmbedding =>
          match scoreSemantic decayFn queryEmbedding
              memoriesWithEmbeddings with
          | .error e => .error e
          | .ok allDecayed =>
              .ok (recallSemanticFinish st input limit minStrength now
                allDecayed)

/-! ## Write pipeline (`remember`, tools/remember.ts) and `forget` -/

/-- `RememberInput`; `metadata_json` carries `input.metadata` already
serialized (the `JSON.stringify(input.metadata)` step is transport). -/
structure RememberInput where
  content : String
  category : Option String := none
  session_id : Option String := none
  scope_id : Option String := none
  chat_id : Option String := none
  thread_id : Option String := none
  task_id : Option String := none
  metadata_json : Option String := none
  idempotency_key : Option String := none
  upsert : Bool := false
  deriving DecidableEq, Repr

/-- `status ∈ {created, updated}`. -/
inductive RememberStatus where
  | created
  | updated
  deriving DecidableEq, Repr

/-- `RememberOutput`. -/
structure RememberOutput where
  id : String
  status : RememberStatus
  deriving DecidableEq, Repr

/-- `CreateMemoryInput` (`src/db/index.ts`). -/
structure CreateMemoryInput where
  id : String
  content : String
  category : Option String := none
  scope_id : Option String := none
  chat_id : Option String := none
  thread_id : Option String := none
  task_id : Option String := none
  metadata_json : Option String := none
  idempotency_key : Option String := none
  embedding : Option (List ℚ) := none
  deriving DecidableEq, Repr

/-- `createMemory` (`src/db/index.ts` lines 233-259): INSERT with the
schema defaults `created_at = updated_at = last_accessed = now`,
`access_count = 1`, `strength = 1.0`. -/
def createMemory (st : Db) (input : CreateMemoryInput) (now : Int) : Db :=
  { st with memories := st.memories ++
      [{ id := input.id, content := input.content,
         category := input.category, scope_id := input.scope_id,
         chat_id := input.chat_id, thread_id := input.thread_id,
         task_id := input.task_id, metadata_json := input.metadata_json,
         idempotency_key := input.idempotency_key, created_at := now,
         updated_at := now, last_accessed := now, access_count := 1,
         strength := 1, embedding := input.embedding }] }

/-- Modelled from the spec: `findMemoryByIdempotencyKey` is imported by
the remember tool but its implementation is missing from the source tree
(only its callers are present).  The spec defines it as
`find_by_idempotency_key(key, scope_id?) → Memory?`, a scoped lookup: the
row must carry the requested key and the requested scope (`NULL` when no
scope is requested). -/
def findMemoryByIdempotencyKey (st : Db) (key : String)
    (scope_id : Option String) : Option Memory :=
  st.memories.find? (fun m =>
    m.idempotency_key = some key && m.scope_id = scope_id)

/-- The update payload of `updateMemoryContent`. -/
structure UpdateContentInput where
  content : String
  category : Option String := none
  metadata_json : Option String := none
  embedding : Option (List ℚ) := none
  deriving DecidableEq, Repr

/-- Modelled from the spec: `updateMemoryContent` is imported by the
remember tool but its implementation is missing from the source tree
(only its callers are present).  The spec defines
`update_memory_content(id, {content, category?, metadata?, embedding?})`
as a full replace of those four fields and `updated_at`, everything else
preserved; omitted optional fields become null. -/
def updateMemoryContent (st : Db) (id : String) (upd : UpdateContentInput)
    (now : Int) : Db :=
  { st with memories := st.memories.map (fun m =>
      if m.id = id then
        { m with
            content := upd.content
            category := upd.category
            metadata_json := upd.metadata_json
            embedding := upd.embedding
            updated_at := now }
      else m) }

/-- The create path of `remember` (Branch C): fresh UUID `newId`, embedding
stored best-effort (`embedBuf` is the successful embedding of the
content), scope fields gated by the scopes flag, the idempotency key
stored iff the flag is enabled or upsert was requested, a `remember`
metric, and a ledger row iff the flag is enabled and a key is present. -/
def rememberCreate (embedBuf : List ℚ) (newId : String) (st : Db)
    (input : RememberInput) (cfg : Config) (now : Int)
    (scopeIdForIdempotency : Option String) : RememberOutput × Db :=
  let st1 := createMemory st
    { id := newId, content := input.content, category := input.category,
      scope_id := if cfg.features.scopes then input.scope_id else none,
      chat_id := if cfg.features.scopes then input.chat_id else none,
      thread_id := if cfg.features.scopes then input.thread_id else none,
      task_id := if cfg.features.scopes then input.task_id else none,
      metadata_json := input.metadata_json,
      idempotency_key :=
        if cfg.features.idempotency || input.upsert then
          input.idempotency_key
        else none,
      embedding := some embedBuf } now
  let st2 := logMetric st1
    { session_id := input.session_id, event := "remember",
      memory_id := some newId, query := none, result_count := none,
      was_fallback := false }
  let st3 :=
    if cfg.features.idempotency ∧ isTruthy input.idempotency_key then
      saveIdempotencyResult st2 (input.idempotency_key.getD "") "remember"
        scopeIdForIdempotency (stringifyIdResult { id := newId })
    else st2
  ({ id := newId, status := .created }, st3)

/-- The upsert-found branch of `remember`: full content replacement via
`updateMemoryContent`, an `upsert` metric, a ledger save when the
idempotency flag is on, result `{id, "updated"}`. -/
def rememberUpsertUpdate (embedBuf : List ℚ) (st : Db)
    (input : RememberInput) (cfg : Config) (now : Int)
    (scopeIdForIdempotency : Option String) (existing : Memory)
    (k : String) : RememberOutput × Db :=
  let st1 := updateMemoryContent st existing.id
    { content := input.content, category := input.category,
      metadata_json := input.metadata_json,
      embedding := some embedBuf } now
  let st2 := logMetric st1
    { session_id := input.session_id, event := "upsert",
      memory_id := some existing.id, query := none,
      result_count := none, was_fallback := false }
  let st3 :=
    if cfg.features.idempotency then
      saveIdempotencyResult st2 k "remember" scopeIdForIdempotency
        (stringifyIdResult { id := existing.id })
    else st2
  ({ id := existing.id, status := .updated }, st3)

/-- `remember` (tools/remember.ts, current revision): upsert path with
lookup by idempotency key, non-upsert idempotency replay from the ledger,
create path otherwise.  `parse` is the `JSON.parse` oracle, `embedBuf` the
successful embedding of the content, `newId` the fresh UUID. -/
def remember (parse : JsonParser) (embedBuf : List ℚ) (newId : String)
    (st : Db) (input : RememberInput) (cfg : Config) (now : Int) :
    Except String (RememberOutput × Db) :=
  let scopeIdForIdempotency :=
    if cfg.features.scopes then input.scope_id else none
  if input.upsert then
    if ¬ isTruthy input.idempotency_key then
      .error "upsert requires idempotency_key"
    else
      let k := input.idempotency_key.getD ""
      match findMemoryByIdempotencyKey st k scopeIdForIdempotency with
      | some existing =>
          .ok (rememberUpsertUpdate embedBuf st input cfg now
            scopeIdForIdempotency existing k)
      | none =>
          .ok (rememberCreate embedBuf newId st input cfg now
            scopeIdForIdempotency)
  else if cfg.features.idempotency ∧ isTruthy input.idempotency_key then
    match getIdempotencyResult parse st (input.idempotency_key.getD "")
        "remember" scopeIdForIdempotency with
    | some cached => .ok ({ id := cached.id, status := .created }, st)
    | none =>
        .ok (rememberCreate embedBuf newId st input cfg now
          scopeIdForIdempotency)
  else
    .ok (rememberCreate embedBuf newId st input cfg now
      scopeIdForIdempotency)

/-- `ForgetInput`. -/
structure ForgetInput where
  id : String
  session_id : Option String := none
  scope_id : Option String := none
  deriving DecidableEq, Repr

/-- `ForgetOutput`. -/
structure ForgetOutput where
  id : String
  deleted : Bool
  deriving DecidableEq, Repr

/-- `forget` (tools/forget.ts lines 15-36): when the scopes flag is on and
no truthy `scope_id` is supplied the request is rejected with
`"scope_id is required when scopes are enabled"` before anything is
deleted; otherwise delete by id (scoped when the flag is on), log a
`forget` metric, and return `{id, deleted}`. -/
def forget (st : Db) (input : ForgetInput) (cfg : Config) :
    Except String (ForgetOutput × Db) :=
  if cfg.features.scopes ∧ ¬ isTruthy input.scope_id then
    .error "scope_id is required when scopes are enabled"
  else
    let r := deleteMemoryById st input.id
      (if cfg.features.scopes then input.scope_id else none)
    let st2 := logMetric r.2
      { session_id := input.session_id, event := "forget",
        memory_id := some input.id, query := none, result_count := none,
        was_fallback := false }
    .ok ({ id := input.id, deleted := r.1 }, st2)

/-! ## Concrete fixtures used by witnesses and counterexamples -/

/-- A plain unscoped memory. -/
def demoM1 : Memory :=
  { id := "m1", content := "alpha", category := none, scope_id := none,
    chat_id := none, thread_id := none, task_id := none,
    metadata_json := none, idempotency_key := none, created_at := 0,
    updated_at := 0, last_accessed := 0, access_count := 1, strength := 1,
    embedding := none }

/-- A second memory with stored strength 0, never returned under the
default `min_strength` of 0.1. -/
def demoM2 : Memory :=
  { demoM1 with id := "m2", content := "beta", strength := 0 }

/-- A two-row store. -/
def demoDb : Db :=
  { memories := [demoM1, demoM2], ledger := [], metrics := [] }

/-- The identity decay oracle (models zero elapsed time, where the decay
function returns the base strength unchanged). -/
def decayId : DecayFn := fun _ _ b => b

/-- An FTS oracle that matches nothing. -/
def ftsNone : FtsOracle := fun _ _ => none

/-- An FTS oracle that matches every content with bm25 rank -1. -/
def ftsAll : FtsOracle := fun _ _ => some (-1)

/-- The recall output of the fallback demo run. -/
def demoOut : RecallOutput :=
  { memories := [{ id := "m1", content := "alpha", category := none,
                   strength := 1, relevance := 1, created_at := 0,
                   access_count := 1 }],
    fallback_mode := true }

/-- The post-state of the fallback demo run: `m1` access-updated at time
5, `m2` untouched, one recall metric. -/
def demoPost : Db :=
  { memories := [{ demoM1 with last_accessed := 5, access_count := 2 },
      demoM2],
    ledger := [],
    metrics := [{ session_id := none, event := "recall",
                  memory_id := none, query := some "",
                  result_count := some 1, was_fallback := true }] }

/-- A memory whose stored strength was lowered to 1/2; such states are
reachable because the CLI decay --apply path persists decayed strengths
via `updateMemoryStrength`. -/
def demoWeak : Memory := { demoM1 with strength := mkRat 1 2 }

/-- A one-row store holding the weakened memory. -/
def demoWeakDb : Db :=
  { memories := [demoWeak], ledger := [], metrics := [] }

/-- A ledger row whose `result_json` is not valid JSON. -/
def corruptRow : LedgerRow :=
  { key := "k", operation := "remember", scope_key := "__global__",
    scope_id := none, result_json := "not-json" }

/-- A store holding only the corrupt ledger row. -/
def corruptDb : Db :=
  { memories := [], ledger := [corruptRow], metrics := [] }

/-- A parse oracle on which exactly the string `"not-json"` fails. -/
def demoParse : JsonParser :=
  fun s => if s = "not-json" then none else some { id := s }

/-- A memory carrying a 2-dimensional embedding. -/
def demoEmb2 : Memory := { demoM1 with embedding := some [1, 0] }

/-- A memory carrying a 3-dimensional embedding (e.g. written under a
different embedding model). -/
def demoEmb3 : Memory :=
  { demoM1 with id := "m3", content := "gamma", embedding := some [1, 0, 0] }

/-- A store mixing embedding dimensions. -/
def mismatchDb : Db :=
  { memories := [demoEmb2, demoEmb3], ledger := [], metrics := [] }

/-- A ledger row cached by a first remember call: its payload parses to
the first call's id `"id-0"` under `demoParse`. -/
def cachedRow : LedgerRow :=
  { key := "k", operation := "remember", scope_key := "__global__",
    scope_id := none, result_json := "id-0" }

/-- A store holding one memory and the cached ledger row. -/
def cachedDb : Db :=
  { memories := [demoM1], ledger := [cachedRow], metrics := [] }

/-- A memory scoped to `"A"`. -/
def demoScoped : Memory :=
  { demoM1 with id := "sA", content := "scoped", scope_id := some "A" }

/-- A store mixing an unscoped and a scoped memory. -/
def scopedDb : Db :=
  { memories := [demoM1, demoScoped], ledger := [], metrics := [] }

/-- The output of the scoped fallback demo recall. -/
def scopedOut : RecallOutput :=
  { memories := [{ id := "sA", content := "scoped", category := none,
                   strength := 1, relevance := 1, created_at := 0,
                   access_count := 1 }],
    fallback_mode := true }

/-- The post-state of the scoped fallback demo recall. -/
def scopedPost : Db :=
  { memories := [demoM1,
      { demoScoped with last_accessed := 5, access_count := 2 }],
    ledger := [],
    metrics := [{ session_id := none, event := "recall",
                  memory_id := none, query := some "",
                  result_count := some 1, was_fallback := true }] }

/-! ## Sorting lemmas (membership and length are all the claims need) -/

theorem mem_insertSorted {le : α → α → Bool} {a b : α} {l : List α} :
    b ∈ insertSorted le a l ↔ b = a ∨ b ∈ l := by
  induction l with
  | nil => simp [insertSorted]
  | cons c l ih =>
    simp only [insertSorted]
    split
    · simp only [List.mem_cons]
    · simp only [List.mem_cons, ih]
      tauto

theorem mem_sortBy {le : α → α → Bool} {a : α} {l : List α} :
    a ∈ sortBy le l ↔ a ∈ l := by
  induction l with
  | nil => simp [sortBy]
  | cons b l ih => simp [sortBy, mem_insertSorted, ih]

theorem length_insertSorted (le : α → α → Bool) (a : α) (l : List α) :
    (insertSorted le a l).length = l.length + 1 := by
  induction l with
  | nil => rfl
  | cons b l ih =>
    simp only [insertSorted]
    split <;> simp [ih]

theorem length_sortBy (le : α → α → Bool) (l : List α) :
    (sortBy le l).length = l.length := by
  induction l with
  | nil => rfl
  | cons b l ih => simp [sortBy, length_insertSorted, ih]

/-! ## Claim C3: the decay formula -/

/-- C3 (amended): for all inputs `calculateDecayedStrength` equals the
spec formula `clamp(base * decay_rate ^ days_since *
(log(access_count + 1) / log 2), 0, 1)` except that `days_since < 0.001`
returns `min(base, 1)` with no scaling; with `access_count = 0` and
`days_since ≥ 0.001` the result is `0`; and the result lies in `[0, 1]`
for every nonnegative base strength.  (The claim's unconditional `[0,1]`
bound fails for a negative base, see `C3_counterexample`.) -/
theorem C3_decay_formula (decayRate nowMs lastMs : ℝ) (ac : ℕ) (base : ℝ) :
    calculateDecayedStrength decayRate nowMs lastMs ac base =
      specEffectiveStrength decayRate ((nowMs - lastMs) / 86400000) ac base ∧
    (ac = 0 → 0.001 ≤ (nowMs - lastMs) / 86400000 →
      calculateDecayedStrength decayRate nowMs lastMs ac base = 0) ∧
    (0 ≤ base →
      calculateDecayedStrength decayRate nowMs lastMs ac base ∈
        Set.Icc (0:ℝ) 1) := by
  have h86 : (1000 * 60 * 60 * 24 : ℝ) = 86400000 := by norm_num
  refine ⟨?_, ?_, ?_⟩
  · simp only [calculateDecayedStrength, specEffectiveStrength, h86]
  · intro hac hdays
    subst hac
    simp only [calculateDecayedStrength, h86]
    rw [if_neg (by linarith)]
    norm_num
  · intro hb
    simp only [calculateDecayedStrength, h86]
    split
    · rw [Set.mem_Icc]
      exact ⟨le_min hb zero_le_one, min_le_right _ _⟩
    · rw [Set.mem_Icc]
      exact ⟨le_min (le_max_right _ _) zero_le_one, min_le_right _ _⟩

/-- C3 witness: concrete instance with one elapsed day; the zero-access
result is `0` and a positive-access result lies in `[0, 1]`. -/
theorem C3_decay_formula_witness :
    (0:ℝ) ≤ 1/2 ∧
    calculateDecayedStrength (95/100) 86400000 0 0 (1/2) = 0 ∧
    calculateDecayedStrength (95/100) 86400000 0 5 (1/2) ∈
      Set.Icc (0:ℝ) 1 := by
  refine ⟨by norm_num, ?_, ?_⟩
  · exact (C3_decay_formula (95/100) 86400000 0 0 (1/2)).2.1 rfl (by norm_num)
  · exact (C3_decay_formula (95/100) 86400000 0 5 (1/2)).2.2 (by norm_num)

/-- C3 counterexample: at base strength `-1` with a fresh access
(`days_since = 0 < 0.001`) the fresh-access branch returns
`min (-1) 1 = -1`, which is outside `[0, 1]`; so "the result always lies
in [0,1]" fails as stated for all inputs. -/
theorem C3_counterexample :
    calculateDecayedStrength (95/100) 0 0 1 (-1) ∉ Set.Icc (0:ℝ) 1 := by
  have h : calculateDecayedStrength (95/100) 0 0 1 (-1) = -1 := by
    simp only [calculateDecayedStrength]
    rw [if_pos (by norm_num)]
    norm_num
  rw [h, Set.mem_Icc]
  intro hc
  linarith [hc.1]

/-! ## Frame lemmas for the access-update loop -/

theorem logMetric_memories (st : Db) (row : MetricRow) :
    (logMetric st row).memories = st.memories := rfl

theorem updateAccessForAll_cons (st : Db) (now : Int) (a : String)
    (ids : List String) :
    updateAccessForAll st now (a :: ids) =
      updateAccessForAll (updateMemoryAccess st a now) now ids := rfl

theorem updateAccessForAll_getElem?_of_not_mem {st : Db} {now : Int}
    {ids : List String} {i : Nat} {m : Memory}
    (hm : st.memories[i]? = some m) (h : m.id ∉ ids) :
    (updateAccessForAll st now ids).memories[i]? = some m := by
  induction ids generalizing st with
  | nil => exact hm
  | cons a ids ih =>
    simp only [List.mem_cons, not_or] at h
    rw [updateAccessForAll_cons]
    refine ih ?_ h.2
    simp [updateMemoryAccess, List.getElem?_map, hm, h.1]

theorem updateAccessForAll_strength {st : Db} {now : Int}
    {ids : List String} {i : Nat} {m : Memory}
    (hm : st.memories[i]? = some m) :
    ∃ m', (updateAccessForAll st now ids).memories[i]? = some m' ∧
      m'.strength = m.strength := by
  induction ids generalizing st m with
  | nil => exact ⟨m, hm, rfl⟩
  | cons a ids ih =>
    rw [updateAccessForAll_cons]
    have hstep : (updateMemoryAccess st a now).memories[i]? =
        some (if m.id = a then
          { m with last_accessed := now, access_count := m.access_count + 1 }
        else m) := by
      simp only [updateMemoryAccess, List.getElem?_map, hm]
      rfl
    obtain ⟨m', h1, h2⟩ := ih hstep
    refine ⟨m', h1, ?_⟩
    rw [h2]
    split <;> rfl

theorem recallFallback_post_memories (decayFn : DecayFn) (fts : FtsOracle)
    (st : Db) (input : RecallInput) (limit : Nat) (minStrength : ℚ)
    (filters : MemoryFilters) (now : Int) :
    (recallFallback decayFn fts st input limit minStrength filters
      now).2.memories =
      (updateAccessForAll st now
        ((recallFallback decayFn fts st input limit minStrength filters
          now).1.memories.map (fun r => r.id))).memories := by
  simp only [recallFallback, logMetric, List.map_map]
  rfl

theorem recallFTS5_post_memories (decayFn : DecayFn) (expQ : ExpFn)
    (fts : FtsOracle) (st : Db) (input : RecallInput) (limit : Nat)
    (minStrength : ℚ) (filters : MemoryFilters) (now : Int) :
    (recallFTS5 decayFn expQ fts st input limit minStrength filters
      now).2.memories =
      (updateAccessForAll st now
        ((recallFTS5 decayFn expQ fts st input limit minStrength filters
          now).1.memories.map (fun r => r.id))).memories := by
  simp only [recallFTS5, logMetric, List.map_map]
  rfl

theorem pair_memories_helper {p : RecallOutput × Db} {out : RecallOutput}
    {post : Db} {st : Db} {now : Int} (h : p = (out, post))
    (hp : p.2.memories =
      (updateAccessForAll st now
        (p.1.memories.map (fun r => r.id))).memories) :
    post.memories =
      (updateAccessForAll st now
        (out.memories.map (fun r => r.id))).memories := by
  subst h
  exact hp

/-- Whatever branch `recall` takes, the post-call memories table is the
pre-call one with one access update per returned memory id. -/
theorem recallTool_ok_memories {decayFn : DecayFn} {expQ : ExpFn}
    {fts : FtsOracle} {embedQ : Option (List ℚ)} {st : Db}
    {input : RecallInput} {cfg : Config} {now : Int} {out : RecallOutput}
    {post : Db}
    (h : recallTool decayFn expQ fts embedQ st input cfg now =
      .ok (out, post)) :
    post.memories =
      (updateAccessForAll st now
        (out.memories.map (fun r => r.id))).memories := by
  simp only [recallTool] at h
  split at h
  · injection h with h2
    exact pair_memories_helper h2
      (recallFallback_post_memories _ _ _ _ _ _ _ _)
  · split at h
    · injection h with h2
      exact pair_memories_helper h2
        (recallFTS5_post_memories _ _ _ _ _ _ _ _ _)
    · split at h
      · injection h with h2
        exact pair_memories_helper h2
          (recallFTS5_post_memories _ _ _ _ _ _ _ _ _)
      · split at h
        · exact absurd h (by simp)
        · injection h with h2
          exact pair_memories_helper h2 rfl

/-! ## Claim C2: decay is ephemeral -/

/-- C2: for every recall call that completes (any query, any filters), a
stored memory that is not among the returned memories is completely
unchanged — in particular its stored strength, access_count and
last_accessed; and no row's stored strength is ever written by recall:
the decayed strength is computed on read only. -/
theorem C2_decay_ephemeral (decayFn : DecayFn) (expQ : ExpFn)
    (fts : FtsOracle) (embedQ : Option (List ℚ)) (st : Db)
    (input : RecallInput) (cfg : Config) (now : Int) (out : RecallOutput)
    (post : Db)
    (h : recallTool decayFn expQ fts embedQ st input cfg now =
      .ok (out, post)) :
    (∀ (i : Nat) (m : Memory), st.memories[i]? = some m →
      m.id ∉ out.memories.map (fun r => r.id) →
      post.memories[i]? = some m) ∧
    (∀ (i : Nat) (m : Memory), st.memories[i]? = some m →
      ∃ m', post.memories[i]? = some m' ∧ m'.strength = m.strength) := by
  have hpost := recallTool_ok_memories h
  constructor
  · intro i m hm hnot
    rw [hpost]
    exact updateAccessForAll_getElem?_of_not_mem hm hnot
  · intro i m hm
    rw [hpost]
    exact updateAccessForAll_strength hm

/-- C2 witness: a concrete fallback recall returning only `m1`; the
non-returned `m2` row is unchanged afterwards. -/
theorem C2_decay_ephemeral_witness :
    recallTool decayId (fun q => q) ftsNone none demoDb { query := "" }
      defaultConfig 5 = .ok (demoOut, demoPost) ∧
    demoDb.memories[1]? = some demoM2 ∧
    demoM2.id ∉ demoOut.memories.map (fun r => r.id) ∧
    demoPost.memories[1]? = some demoM2 := by
  have h : recallTool decayId (fun q => q) ftsNone none demoDb
      { query := "" } defaultConfig 5 = .ok (demoOut, demoPost) := by
    decide
  refine ⟨h, by decide, by decide, ?_⟩
  exact (C2_decay_ephemeral _ _ _ _ _ _ _ _ _ _ h).1 1 demoM2 (by decide)
    (by decide)

/-! ## Claim C1: access boost on recall -/

/-- C1 (the code at the failing input): a fallback recall returns the
memory whose stored strength is 1/2; afterwards its `last_accessed` and
`access_count` are updated but its stored strength is still 1/2 — not
the configured `access_boost_strength` (default 1.0) — because
`updateMemoryAccess` (db/index.ts lines 307-316) only writes
`last_accessed` and `access_count`, never `strength`. -/
theorem C1_access_update_keeps_strength :
    recallTool decayId (fun q => q) ftsNone none demoWeakDb { query := "" }
        defaultConfig 5 =
      .ok ({ memories := [{ id := "m1", content := "alpha",
                            category := none, strength := mkRat 1 2,
                            relevance := mkRat 1 2, created_at := 0,
                            access_count := 1 }],
             fallback_mode := true },
           { memories :=
               [{ demoWeak with last_accessed := 5, access_count := 2 }],
             ledger := [],
             metrics := [{ session_id := none, event := "recall",
                           memory_id := none, query := some "",
                           result_count := some 1,
                           was_fallback := true }] }) ∧
    ({ demoWeak with last_accessed := 5, access_count := 2 }).strength =
      mkRat 1 2 ∧
    defaultConfig.accessBoostStrength = 1 ∧
    (mkRat 1 2 : ℚ) ≠ 1 := by
  exact ⟨by decide, by decide, by decide, by decide⟩

/-! ## Claim C4: forget without scope_id under the scopes flag -/

/-- C4 (the code at the failing input): with the scopes flag enabled,
`forget` without a `scope_id` on a store holding the unscoped memory
`m1` rejects the request with an error and deletes nothing — it does not
perform the unscoped-only delete the claim describes. -/
theorem C4_forget_rejects_without_scope :
    forget demoDb { id := "m1" } defaultConfig =
      .error "scope_id is required when scopes are enabled" ∧
    defaultConfig.features.scopes = true ∧
    demoM1.id = "m1" ∧ demoM1.scope_id = none ∧
    demoM1 ∈ demoDb.memories := by
  exact ⟨by decide, rfl, rfl, rfl, by decide⟩

/-! ## Claim C8: corrupt ledger JSON on read -/

/-- C8 (the code at the failing input): with a ledger row whose
`result_json` fails to parse, `getIdempotencyResult` returns `none` —
indistinguishable from the absent-row result on the empty ledger — rather
than surfacing an error; the `catch` block swallows the parse failure and
the return type has no error channel at all. -/
theorem C8_corrupt_ledger_swallowed :
    getIdempotencyResult demoParse corruptDb "k" "remember" none = none ∧
    getIdempotencyResult demoParse
      { memories := [], ledger := [], metrics := [] } "k" "remember" none =
      none ∧
    corruptDb.ledger.find? (fun r => r.key = "k" && r.operation = "remember"
      && r.scope_key = normalizeScopeKey none) = some corruptRow ∧
    demoParse corruptRow.result_json = none := by
  exact ⟨by decide, by decide, by decide, by decide⟩

/-! ## Claim C10: embedding dimension mismatch -/

/-- C10: `cosineSimilarity` throws exactly on a length mismatch, and a
recall over a store holding a 3-dimensional embedding next to a
2-dimensional one fails as a whole when the query embedding has dimension
2 — the error aborts the semantic map, the mismatched row is not skipped,
so the error branch of `recall` is reachable from a stored state. -/
theorem C10_dimension_mismatch_fails_recall :
    cosineSimilarity [1, 0] [1, 0, 0] =
      .error "Embedding dimension mismatch: 2 vs 3" ∧
    recallTool decayId (fun q => q) ftsNone (some [1, 0]) mismatchDb
      { query := "gamma" } defaultConfig 5 =
      .error "Embedding dimension mismatch: 2 vs 3" := by
  exact ⟨by decide, by decide⟩

/-! ## Claim C6: embedding failure falls back to FTS -/

/-- C6: for every recall with a non-whitespace query where candidates
with embeddings exist but embedding the query fails (`embedQ = none`),
the call does not error: it returns exactly the FTS-path result, and
that result's `fallback_mode` is `false`. -/
theorem C6_embed_failure_falls_back (decayFn : DecayFn) (expQ : ExpFn)
    (fts : FtsOracle) (st : Db) (input : RecallInput) (cfg : Config)
    (now : Int)
    (hq : trimIsEmpty input.query = false)
    (hc : (getAllMemoriesWithEmbeddings st
      (recallFilters input cfg)).isEmpty = false) :
    recallTool decayFn expQ fts none st input cfg now =
      .ok (recallFTS5 decayFn expQ fts st input
        (input.limit.getD cfg.defaultRecallLimit)
        (input.min_strength.getD cfg.minStrength)
        (recallFilters input cfg) now) ∧
    (recallFTS5 decayFn expQ fts st input
      (input.limit.getD cfg.defaultRecallLimit)
      (input.min_strength.getD cfg.minStrength)
      (recallFilters input cfg) now).1.fallback_mode = false := by
  constructor
  · simp only [recallTool]
    rw [if_neg (by simp [hq]), if_neg (by simp [hc])]
  · rfl

/-- C6 witness: a concrete recall with query "gamma" over a store that
has embedded candidates, with a failed query embedding. -/
theorem C6_embed_failure_falls_back_witness :
    trimIsEmpty ("gamma" : String) = false ∧
    (getAllMemoriesWithEmbeddings mismatchDb
      (recallFilters { query := "gamma" } defaultConfig)).isEmpty = false ∧
    recallTool decayId (fun q => q) ftsNone none mismatchDb
      { query := "gamma" } defaultConfig 5 =
      .ok (recallFTS5 decayId (fun q => q) ftsNone mismatchDb
        { query := "gamma" } 10 (mkRat 1 10)
        (recallFilters { query := "gamma" } defaultConfig) 5) := by
  refine ⟨by decide, by decide, ?_⟩
  exact (C6_embed_failure_falls_back decayId (fun q => q) ftsNone
    mismatchDb { query := "gamma" } defaultConfig 5 (by decide)
    (by decide)).1

/-! ## Claim C5: remember is idempotent under replay -/

/-- C5: with the idempotency flag enabled and `upsert = false`, a
remember call whose `(idempotency_key, scope)` has a cached ledger row
(saved by the first call, parsing to id `i`) returns `{id := i,
status := created}` and leaves the store completely unchanged — no new
memory row is inserted, whatever the current memories (e.g. after later
upsert updates). -/
theorem C5_remember_replay (parse : JsonParser) (embedBuf : List ℚ)
    (newId : String) (st : Db) (input : RememberInput) (cfg : Config)
    (now : Int) (row : LedgerRow) (k i : String)
    (hidem : cfg.features.idempotency = true)
    (hups : input.upsert = false)
    (hkey : input.idempotency_key = some k)
    (hk : k ≠ "")
    (hfind : st.ledger.find? (fun r =>
        r.key = k && r.operation = "remember" &&
        r.scope_key = normalizeScopeKey
          (if cfg.features.scopes then input.scope_id else none)) =
      some row)
    (hparse : parse row.result_json = some { id := i }) :
    remember parse embedBuf newId st input cfg now =
      .ok ({ id := i, status := .created }, st) := by
  simp only [remember, getIdempotencyResult, hups, hidem, hkey, hk,
    Option.getD_some, isTruthy, Bool.false_eq_true, if_false, hfind,
    hparse, ne_eq, not_false_eq_true, and_self, if_true, decide_True,
    and_true, true_and, if_pos]

/-- C5 witness: a concrete replay against the cached ledger row returns
the first call's id with status created and the unchanged store. -/
theorem C5_remember_replay_witness :
    defaultConfig.features.idempotency = true ∧
    cachedDb.ledger.find? (fun r =>
        r.key = "k" && r.operation = "remember" &&
        r.scope_key = normalizeScopeKey
          (if defaultConfig.features.scopes then
            ({ content := "x", idempotency_key := some "k" } :
              RememberInput).scope_id
          else none)) = some cachedRow ∧
    demoParse cachedRow.result_json = some { id := "id-0" } ∧
    remember demoParse [1] "new-id" cachedDb
      { content := "x", idempotency_key := some "k" } defaultConfig 7 =
      .ok ({ id := "id-0", status := .created }, cachedDb) := by
  refine ⟨rfl, by decide, by decide, ?_⟩
  exact C5_remember_replay demoParse [1] "new-id" cachedDb
    { content := "x", idempotency_key := some "k" } defaultConfig 7
    cachedRow "k" "id-0" rfl rfl rfl (by decide) (by decide) (by decide)

/-! ## Claim C7: upsert fully replaces content and preserves identity -/

/-- Mapping a per-row update over the table does not change a projection
the update preserves. -/
theorem map_map_proj_eq {β : Type} {f : Memory → Memory}
    {proj : Memory → β} (hproj : ∀ m, proj (f m) = proj m)
    (l : List Memory) : (l.map f).map proj = l.map proj := by
  induction l with
  | nil => rfl
  | cons a l ih => simp [hproj, ih]

/-- C7: an upsert (`upsert = true` with an idempotency key matching an
existing memory) returns `{id := existing.id, status := updated}` and
rewrites the store so that the matched row's content, category, metadata
and embedding are fully replaced — omitted optional fields become null —
and `updated_at` is refreshed to `now`, while every row keeps its id,
`created_at`, `access_count`, `strength` and all four scope fields. -/
theorem C7_upsert_full_replace (parse : JsonParser) (embedBuf : List ℚ)
    (newId : String) (st : Db) (input : RememberInput) (cfg : Config)
    (now : Int) (k : String) (existing : Memory)
    (hups : input.upsert = true)
    (hkey : input.idempotency_key = some k)
    (hk : k ≠ "")
    (hfind : findMemoryByIdempotencyKey st k
      (if cfg.features.scopes then input.scope_id else none) =
      some existing) :
    ∃ post,
      remember parse embedBuf newId st input cfg now =
        .ok ({ id := existing.id, status := .updated }, post) ∧
      post.memories = st.memories.map (fun m =>
        if m.id = existing.id then
          { m with
              content := input.content
              category := input.category
              metadata_json := input.metadata_json
              embedding := some embedBuf
              updated_at := now }
        else m) ∧
      post.memories.map (fun m => m.id) =
        st.memories.map (fun m => m.id) ∧
      post.memories.map (fun m => m.created_at) =
        st.memories.map (fun m => m.created_at) ∧
      post.memories.map (fun m => m.access_count) =
        st.memories.map (fun m => m.access_count) ∧
      post.memories.map (fun m => m.strength) =
        st.memories.map (fun m => m.strength) ∧
      post.memories.map (fun m =>
          (m.scope_id, m.chat_id, m.thread_id, m.task_id)) =
        st.memories.map (fun m =>
          (m.scope_id, m.chat_id, m.thread_id, m.task_id)) := by
  refine ⟨(rememberUpsertUpdate embedBuf st input cfg now
    (if cfg.features.scopes then input.scope_id else none) existing k).2,
    ?_, ?_, ?_, ?_, ?_, ?_, ?_⟩
  · simp only [remember, hups, hkey, isTruthy, hk, Option.getD_some,
      ne_eq, not_false_eq_true, decide_True, not_true_eq_false,
      Bool.false_eq_true, if_false, if_true, hfind]
    rfl
  · simp only [rememberUpsertUpdate, logMetric, saveIdempotencyResult,
      updateMemoryContent]
    split <;> rfl
  all_goals {
    have hmem : (rememberUpsertUpdate embedBuf st input cfg now
        (if cfg.features.scopes then input.scope_id else none) existing
        k).2.memories =
        st.memories.map (fun m =>
          if m.id = existing.id then
            { m with
                content := input.content
                category := input.category
                metadata_json := input.metadata_json
                embedding := some embedBuf
                updated_at := now }
          else m) := by
      simp only [rememberUpsertUpdate, logMetric, saveIdempotencyResult,
        updateMemoryContent]
      split <;> rfl
    rw [hmem]
    exact map_map_proj_eq (fun m => by split <;> rfl) _ }

/-- C7 witness: a concrete upsert against a store holding a keyed memory
fully replaces content and nulls the omitted category and metadata. -/
theorem C7_upsert_full_replace_witness :
    ({ content := "new", idempotency_key := some "k", upsert := true } :
      RememberInput).upsert = true ∧
    findMemoryByIdempotencyKey
      { memories := [{ demoM1 with idempotency_key := some "k" }],
        ledger := [], metrics := [] } "k"
      (if defaultConfig.features.scopes then
        ({ content := "new", idempotency_key := some "k",
           upsert := true } : RememberInput).scope_id
      else none) = some { demoM1 with idempotency_key := some "k" } ∧
    (∃ post,
      remember demoParse [1] "new-id"
        { memories := [{ demoM1 with idempotency_key := some "k" }],
          ledger := [], metrics := [] }
        { content := "new", idempotency_key := some "k", upsert := true }
        defaultConfig 9 =
        .ok ({ id := "m1", status := .updated }, post) ∧
      post.memories =
        [{ demoM1 with idempotency_key := some "k" }].map (fun m =>
          if m.id = "m1" then
            { m with
                content := "new"
                category := none
                metadata_json := none
                embedding := some [1]
                updated_at := 9 }
          else m)) := by
  refine ⟨rfl, by decide, ?_⟩
  obtain ⟨post, h1, h2, _⟩ := C7_upsert_full_replace demoParse [1] "new-id"
    { memories := [{ demoM1 with idempotency_key := some "k" }],
      ledger := [], metrics := [] }
    { content := "new", idempotency_key := some "k", upsert := true }
    defaultConfig 9 "k" { demoM1 with idempotency_key := some "k" }
    rfl rfl (by decide) (by decide)
  exact ⟨post, h1, h2⟩

/-! ## Claim C9: scope isolation -/

theorem pair_fst_helper {p : RecallOutput × Db} {out : RecallOutput}
    {post : Db} (h : p = (out, post)) : p.1 = out := by
  subst h
  rfl

theorem mem_getAllMemories {st : Db} {lim : Nat} {f : MemoryFilters}
    {m : Memory} (h : m ∈ getAllMemories st lim f) :
    m ∈ st.memories ∧ matchesFilters f m = true := by
  have h1 := List.take_subset _ _ h
  rw [mem_sortBy] at h1
  have h2 := List.mem_filter.mp h1
  exact ⟨h2.1, h2.2⟩

theorem mem_searchMemories {fts : FtsOracle} {st : Db} {q : String}
    {lim : Nat} {f : MemoryFilters} {s : SearchResult}
    (h : s ∈ searchMemories fts st q lim f) :
    s.mem ∈ st.memories ∧ matchesFilters f s.mem = true := by
  unfold searchMemories at h
  split at h
  · obtain ⟨m, hm, hmap⟩ := List.mem_map.mp h
    obtain ⟨h1, h2⟩ := mem_getAllMemories hm
    subst hmap
    exact ⟨h1, h2⟩
  · have h1 := List.take_subset _ _ h
    rw [mem_sortBy] at h1
    obtain ⟨m, hm, hg⟩ := List.mem_filterMap.mp h1
    split at hg
    · split at hg
      · rename_i hf
        injection hg with hg2
        subst hg2
        exact ⟨hm, hf⟩
      · exact absurd hg (by simp)
    · exact absurd hg (by simp)

theorem scope_of_matchesFilters {f : MemoryFilters} {m : Memory}
    {A : String} (hf : matchesFilters f m = true)
    (hA : f.scope_id = some A) (hne : A ≠ "") : m.scope_id = some A := by
  unfold matchesFilters at hf
  simp only [Bool.and_eq_true] at hf
  have h1 := hf.1.1.1
  rw [hA] at h1
  simp only [filterDimension] at h1
  rw [if_neg hne] at h1
  exact of_decide_eq_true h1

theorem mem_getAllMemoriesWithEmbeddings {st : Db} {f : MemoryFilters}
    {m : Memory} (h : m ∈ getAllMemoriesWithEmbeddings st f) :
    m ∈ st.memories ∧ matchesFilters f m = true := by
  have h1 := List.mem_filter.mp h
  have h2 := h1.2
  rw [Bool.and_eq_true] at h2
  exact ⟨h1.1, h2.2⟩

theorem mem_scoreSemantic {decayFn : DecayFn} {q : List ℚ}
    {l : List Memory} {l' : List RecallMemory}
    (h : scoreSemantic decayFn q l = .ok l') {rm : RecallMemory}
    (hrm : rm ∈ l') : ∃ m ∈ l, rm.id = m.id := by
  induction l generalizing l' with
  | nil =>
      injection h with h2
      subst h2
      exact absurd hrm (by simp)
  | cons m rest ih =>
      unfold scoreSemantic at h
      revert h
      cases hcos : cosineSimilarity q (m.embedding.getD []) with
      | error e =>
          intro h
          exact absurd h (by simp)
      | ok sim =>
          cases hs : scoreSemantic decayFn q rest with
          | error e =>
              intro h
              exact absurd h (by simp)
          | ok tail =>
              intro h
              injection h with h2
              subst h2
              rcases List.mem_cons.mp hrm with h1 | h1
              · subst h1
                exact ⟨m, List.mem_cons_self _ _, rfl⟩
              · obtain ⟨m', hm', hid⟩ := ih hs h1
                exact ⟨m', List.mem_cons_of_mem _ hm', hid⟩

theorem mem_recallFTS5_memories {decayFn : DecayFn} {expQ : ExpFn}
    {fts : FtsOracle} {st : Db} {input : RecallInput} {limit : Nat}
    {minStrength : ℚ} {filters : MemoryFilters} {now : Int}
    {rm : RecallMemory}
    (h : rm ∈ (recallFTS5 decayFn expQ fts st input limit minStrength
      filters now).1.memories) :
    ∃ r ∈ st.memories, rm.id = r.id ∧ matchesFilters filters r = true := by
  simp only [recallFTS5] at h
  obtain ⟨p, hp, hmap⟩ := List.mem_map.mp h
  have hp1 := List.take_subset _ _ hp
  have hp2 := (List.mem_filter.mp hp1).1
  have hp3 := (List.mem_filter.mp hp2).1
  obtain ⟨sres, hs, hps⟩ := List.mem_map.mp hp3
  obtain ⟨hmem, hmatch⟩ := mem_searchMemories hs
  subst hmap
  subst hps
  exact ⟨sres.mem, hmem, rfl, hmatch⟩

theorem mem_recallFallback_memories {decayFn : DecayFn} {fts : FtsOracle}
    {st : Db} {input : RecallInput} {limit : Nat} {minStrength : ℚ}
    {filters : MemoryFilters} {now : Int} {rm : RecallMemory}
    (h : rm ∈ (recallFallback decayFn fts st input limit minStrength
      filters now).1.memories) :
    ∃ r ∈ st.memories, rm.id = r.id ∧ matchesFilters filters r = true := by
  simp only [recallFallback] at h
  obtain ⟨p, hp, hmap⟩ := List.mem_map.mp h
  have hp1 := List.take_subset _ _ hp
  have hp2 := (List.mem_filter.mp hp1).1
  have hp3 := (List.mem_filter.mp hp2).1
  obtain ⟨sres, hs, hps⟩ := List.mem_map.mp hp3
  obtain ⟨hmem, hmatch⟩ := mem_searchMemories hs
  subst hmap
  subst hps
  exact ⟨sres.mem, hmem, rfl, hmatch⟩

theorem mem_recallSemanticFinish {st : Db} {input : RecallInput}
    {limit : Nat} {minStrength : ℚ} {now : Int}
    {allDecayed : List RecallMemory} {rm : RecallMemory}
    (h : rm ∈ (recallSemanticFinish st input limit minStrength now
      allDecayed).1.memories) : rm ∈ allDecayed := by
  simp only [recallSemanticFinish] at h
  have h1 := List.take_subset _ _ h
  rw [mem_sortBy] at h1
  exact (List.mem_filter.mp (List.mem_filter.mp h1).1).1

/-- C9: when the scopes flag is enabled and recall is called with a
non-empty `scope_id = A`, every returned memory corresponds to a stored
row whose `scope_id` is exactly `some A` — never a different scope and
never null — in all three recall modes (recent-mode, FTS, semantic). -/
theorem C9_scope_isolation (decayFn : DecayFn) (expQ : ExpFn)
    (fts : FtsOracle) (embedQ : Option (List ℚ)) (st : Db)
    (input : RecallInput) (cfg : Config) (now : Int) (out : RecallOutput)
    (post : Db) (A : String)
    (hscopes : cfg.features.scopes = true)
    (hA : input.scope_id = some A) (hne : A ≠ "")
    (h : recallTool decayFn expQ fts embedQ st input cfg now =
      .ok (out, post)) :
    ∀ rm ∈ out.memories, ∃ r ∈ st.memories,
      rm.id = r.id ∧ r.scope_id = some A := by
  have hfA : (recallFilters input cfg).scope_id = some A := by
    simp [recallFilters, hscopes, hA]
  intro rm hrm
  simp only [recallTool] at h
  split at h
  · injection h with h2
    rw [← pair_fst_helper h2] at hrm
    obtain ⟨r, hr, hid, hmatch⟩ := mem_recallFallback_memories hrm
    exact ⟨r, hr, hid, scope_of_matchesFilters hmatch hfA hne⟩
  · split at h
    · injection h with h2
      rw [← pair_fst_helper h2] at hrm
      obtain ⟨r, hr, hid, hmatch⟩ := mem_recallFTS5_memories hrm
      exact ⟨r, hr, hid, scope_of_matchesFilters hmatch hfA hne⟩
    · split at h
      · injection h with h2
        rw [← pair_fst_helper h2] at hrm
        obtain ⟨r, hr, hid, hmatch⟩ := mem_recallFTS5_memories hrm
        exact ⟨r, hr, hid, scope_of_matchesFilters hmatch hfA hne⟩
      · split at h
        · exact absurd h (by simp)
        · rename_i allDecayed heq
          injection h with h2
          rw [← pair_fst_helper h2] at hrm
          have hall := mem_recallSemanticFinish hrm
          obtain ⟨m, hm, hid⟩ := mem_scoreSemantic heq hall
          obtain ⟨hmem, hmatch⟩ := mem_getAllMemoriesWithEmbeddings hm
          exact ⟨m, hmem, hid, scope_of_matchesFilters hmatch hfA hne⟩

/-- C9 witness: a concrete scoped fallback recall over a store mixing an
unscoped and an "A"-scoped memory returns only the scoped one. -/
theorem C9_scope_isolation_witness :
    defaultConfig.features.scopes = true ∧
    ("A" : String) ≠ "" ∧
    recallTool decayId (fun q => q) ftsNone none scopedDb
      { query := "", scope_id := some "A" } defaultConfig 5 =
      .ok (scopedOut, scopedPost) ∧
    (∀ rm ∈ scopedOut.memories, ∃ r ∈ scopedDb.memories,
      rm.id = r.id ∧ r.scope_id = some "A") := by
  have h : recallTool decayId (fun q => q) ftsNone none scopedDb
      { query := "", scope_id := some "A" } defaultConfig 5 =
      .ok (scopedOut, scopedPost) := by decide
  exact ⟨rfl, by decide, h,
    C9_scope_isolation _ _ _ _ _ _ _ _ _ _ _ rfl rfl (by decide) h⟩

end Engram
